import Mathlib

/-!
Verification of the HTML-to-CSV data pipeline.

A shallow embedding of `utils/dataManager.js` and the extraction
orchestrator of the portfolio repository: DOM extraction of career and
thanks records, shape validation, and the CSV codec (save / load), with
theorems about the documented behaviour.

HTML documents are modelled as trees of element and text nodes (the shape
cheerio produces from any input string); selector queries, `.text()`,
`.attr()` and `clone().find(..).remove()` are embedded as functions over
these trees.  Records are flat association lists of string fields, in
insertion order, mirroring the JS object literals built by the extractors.
-/

namespace Homepage

/-- A record: a flat mapping of string field names to string values, in
insertion order (the shape of the JS object literals the extractors build). -/
abbrev Rec := List (String × String)

/-- Characters removed by JS `String.prototype.trim` (the whitespace
characters that occur in practice). -/
def isJsSpace (c : Char) : Bool :=
  c = ' ' || c = '\t' || c = '\n' || c = '\r' || c = '\x0b' || c = '\x0c'

/-- Trim leading and trailing whitespace from a character list. -/
def trimChars (cs : List Char) : List Char :=
  ((cs.dropWhile isJsSpace).reverse.dropWhile isJsSpace).reverse

/-- The JS `s.trim()` operation. -/
def jsTrim (s : String) : String :=
  String.mk (trimChars s.toList)

/-- A DOM node: an element with tag, attributes and children, or a text
node.  This is the tree cheerio builds from an HTML input string. -/
inductive Node where
  | elem (tag : String) (attrs : List (String × String)) (children : List Node)
  | text (s : String)

/-- First value bound to an attribute name, as cheerio `attr` reads it. -/
def attrOf (n : Node) (key : String) : Option String :=
  match n with
  | .elem _ attrs _ => (attrs.find? (fun p => p.1 = key)).map Prod.snd
  | .text _ => none

/-- Split a character list at every character satisfying the predicate. -/
def splitOnP (p : Char → Bool) : List Char → List (List Char)
  | [] => [[]]
  | c :: rest =>
      let r := splitOnP p rest
      if p c then [] :: r else (c :: r.headD []) :: r.tail

/-- Does the element carry `c` in its (whitespace-separated) class list? -/
def hasCls (c : String) (n : Node) : Bool :=
  match attrOf n "class" with
  | some s => (splitOnP isJsSpace s.toList).contains c.toList
  | none => false

/-- Does the node have the given element tag? -/
def tagIs (t : String) (n : Node) : Bool :=
  match n with
  | .elem tg _ _ => tg = t
  | .text _ => false

mutual

/-- All proper descendants of a node, in document (preorder) order:
the node set cheerio's `find` searches. -/
def descendants : Node → List Node
  | .text _ => []
  | .elem _ _ cs => descendantsList cs

/-- Each node of the list followed by its descendants, in document order. -/
def descendantsList : List Node → List Node
  | [] => []
  | n :: ns => n :: (descendants n ++ descendantsList ns)

end

mutual

/-- cheerio `.text()` of a single node: concatenation of all text content
in the subtree, in document order. -/
def textContent : Node → String
  | .text s => s
  | .elem _ _ cs => textContentList cs

/-- Concatenated text content of a list of nodes. -/
def textContentList : List Node → String
  | [] => ""
  | n :: ns => textContent n ++ textContentList ns

end

mutual

/-- Text content of a node with every `sup` element subtree removed: the
effect of `clone(); find('sup').remove(); text()` on the clone. -/
def textNoSup : Node → String
  | .text s => s
  | .elem tg _ cs => if tg = "sup" then "" else textNoSupList cs

/-- Text content of a list of nodes, skipping `sup` subtrees. -/
def textNoSupList : List Node → String
  | [] => ""
  | n :: ns => textNoSup n ++ textNoSupList ns

end

/-- Text of a cheerio selection, via `.text()`: concatenation over all matched
nodes, in order. -/
def selText (sel : List Node) : String :=
  String.join (sel.map textContent)

/-! Career extraction (`extractCareerData`) -/

/-- Field names of a career record, in the insertion order of the object
literal in `extractCareerData`. -/
def careerKeys : List String :=
  ["no", "serverName", "note", "category", "count",
   "department", "position", "job", "term"]

/-- The rows selected by `$('.discord-career-table tbody tr')`: `tr`
descendants of `tbody` descendants of elements with the table class. -/
def careerTableRows (doc : List Node) : List Node :=
  ((descendantsList doc).filter (hasCls "discord-career-table")).flatMap fun tbl =>
    ((descendants tbl).filter (tagIs "tbody")).flatMap fun tb =>
      (descendants tb).filter (tagIs "tr")

/-- The cells `$(row).find('td')`: the row's `td` descendants, in document order. -/
def rowCells (row : Node) : List Node :=
  (descendants row).filter (tagIs "td")

/-- The value `$(cells[i]).text().trim()`: trimmed text of the i-th cell; the empty
string when the index is out of range (an empty cheerio selection). -/
def cellText (cells : List Node) (i : Nat) : String :=
  match cells.get? i with
  | some c => jsTrim (textContent c)
  | none => ""

/-- The selection `serverCell.find('sup')`: the `sup` descendants of the name cell
(`cells[1]`); empty when the cell is out of range. -/
def rowSups (cells : List Node) : List Node :=
  match cells.get? 1 with
  | some c => (descendants c).filter (tagIs "sup")
  | none => []

/-- The `serverName` field: trimmed cell text, computed on a copy with all
`sup` subtrees removed when a `sup` is present. -/
def rowServerName (cells : List Node) : String :=
  match cells.get? 1 with
  | some c =>
      if ((descendants c).filter (tagIs "sup")).isEmpty then
        jsTrim (textContent c)
      else
        jsTrim (textNoSup c)
  | none => ""

/-- The marker `sup.text().trim()`: the marker text of the matched `sup` elements. -/
def rowMarker (cells : List Node) : String :=
  jsTrim (selText (rowSups cells))

/-- The detail `sup.attr('data-note') || ''`: the first `sup`'s detail attribute,
defaulting to the empty string. -/
def rowDetail (cells : List Node) : String :=
  match (rowSups cells).head? with
  | some s => (attrOf s "data-note").getD ""
  | none => ""

/-- The `note` field: `"<marker> <detail>"` when a detail is present,
the marker alone otherwise, and empty when there is no `sup`. -/
def rowNote (cells : List Node) : String :=
  if (rowSups cells).isEmpty then ""
  else if rowDetail cells = "" then rowMarker cells
  else rowMarker cells ++ " " ++ rowDetail cells

/-- The record pushed for one table row (the object literal of
`extractCareerData`, fields in insertion order). -/
def careerRowRecord (row : Node) : Rec :=
  let cells := rowCells row
  [("no", cellText cells 0),
   ("serverName", rowServerName cells),
   ("note", rowNote cells),
   ("category", cellText cells 2),
   ("count", cellText cells 3),
   ("department", cellText cells 4),
   ("position", cellText cells 5),
   ("job", cellText cells 6),
   ("term", cellText cells 7)]

/-- The extractor `extractCareerData`: one record per table body row, in document order,
skipping rows with zero `td` cells. -/
def extractCareerData (doc : List Node) : List Rec :=
  (careerTableRows doc).filterMap fun row =>
    if (rowCells row).isEmpty then none else some (careerRowRecord row)

/-! Thanks extraction (`extractThanksData`) -/

/-- Field names of a thanks record, in the insertion order of the object
literal in `extractThanksData`. -/
def thanksKeys : List String :=
  ["year", "type", "number", "user", "item", "date", "displayDate"]

/-- The selection `$(root).find('.cls')`: descendants carrying a class. -/
def findCls (root : Node) (c : String) : List Node :=
  (descendants root).filter (hasCls c)

/-- The type `$card.attr('data-type') || 'unknown'`: the type attribute, defaulting
to `"unknown"` when missing or empty. -/
def cardType (card : Node) : String :=
  match attrOf card "data-type" with
  | some t => if t = "" then "unknown" else t
  | none => "unknown"

/-- The text `$card.find('.cls').text().trim()`. -/
def cardClsText (card : Node) (c : String) : String :=
  jsTrim (selText (findCls card c))

/-- The selection `$card.find('.gift-meta time')`: `time` descendants of `.gift-meta`
descendants of the card. -/
def cardMetaTimes (card : Node) : List Node :=
  (findCls card "gift-meta").flatMap fun m => (descendants m).filter (tagIs "time")

/-- The selection `$card.find('.gift-card-body .tag')`. -/
def cardBodyTags (card : Node) : List Node :=
  (findCls card "gift-card-body").flatMap fun b => (descendants b).filter (hasCls "tag")

/-- The value `.attr('datetime') || ''` on the matched `time` selection: the first
match's attribute, defaulting to the empty string. -/
def cardDate (card : Node) : String :=
  match (cardMetaTimes card).head? with
  | some t => (attrOf t "datetime").getD ""
  | none => ""

/-- The record pushed for one gift card under a year heading. -/
def thanksCardRecord (year : String) (card : Node) : Rec :=
  [("year", year),
   ("type", cardType card),
   ("number", cardClsText card "gift-number"),
   ("user", cardClsText card "gift-user"),
   ("item", jsTrim (selText (cardBodyTags card))),
   ("date", cardDate card),
   ("displayDate", jsTrim (selText (cardMetaTimes card)))]

/-- Heading text of a year group (its `.year-title` elements). -/
def yearTitle (ys : Node) : String :=
  jsTrim (selText (findCls ys "year-title"))

/-- The extractor `extractThanksData`: group-major over `.gift-year` sections, then the
section's `.gift-card` entries in document order. -/
def extractThanksData (doc : List Node) : List Rec :=
  ((descendantsList doc).filter (hasCls "gift-year")).flatMap fun ys =>
    (findCls ys "gift-card").map (thanksCardRecord (yearTitle ys))

/-! Validators -/

/-- A JS value as it can reach the validators: an array of records, or a
non-array value (`null`, a string, a number, a boolean). -/
inductive JSValue where
  | null
  | str (s : String)
  | num (n : Int)
  | bool (b : Bool)
  | arr (rows : List Rec)

/-- The JS test `key in row`: the record carries the field name as a key. -/
def hasKey (row : Rec) (k : String) : Bool :=
  row.any fun p => p.1 = k

/-- The validator `validateCareerData`: false for non-arrays, true for the empty array,
and otherwise every record must contain every required career key. -/
def validateCareerData (v : JSValue) : Bool :=
  match v with
  | .arr rows =>
      if rows.length = 0 then true
      else rows.all fun row => careerKeys.all (hasKey row)
  | _ => false

/-- The validator `validateThanksData`: same shape check against the thanks keys. -/
def validateThanksData (v : JSValue) : Bool :=
  match v with
  | .arr rows =>
      if rows.length = 0 then true
      else rows.all fun row => thanksKeys.all (hasKey row)
  | _ => false

/-! CSV codec

`saveToCSV` and `loadFromCSV` delegate the text encoding to the
`csv-stringify` / `csv-parse` libraries (configured with `header: true`,
`columns`, respectively `columns: true`, `trim: true`,
`skip_empty_lines: true`).  The libraries themselves are not part of the
repository's sources, so their text format is modelled from the spec:
header row from the first record's key order, values under standard CSV
quoting, header-aware parsing with trimmed cells and empty lines skipped. -/

/-- The access `row[k]`: value of a field by name; the empty string for an absent
key (how `csv-stringify` reads a missing column from a record). -/
def lookupD (row : Rec) (k : String) : String :=
  ((row.find? fun p => p.1 = k).map Prod.snd).getD ""

/-- Does a field need CSV quoting (delimiter, quote or newline inside)? -/
def csvSpecial (c : Char) : Bool :=
  c = ',' || c = '"' || c = '\n' || c = '\r'

/-- Modelled from the spec: standard CSV quoting of one field — quote and
double the embedded quotes exactly when the field contains a delimiter,
quote or newline. -/
def csvFieldChars (cs : List Char) : List Char :=
  if cs.any csvSpecial then
    '"' :: (cs.flatMap fun c => if c = '"' then ['"', '"'] else [c]) ++ ['"']
  else cs

/-- Fields of one row joined by the comma delimiter. -/
def joinComma : List (List Char) → List Char
  | [] => []
  | [f] => f
  | f :: fs => f ++ ',' :: joinComma fs

/-- One CSV line: the quoted fields, comma-separated. -/
def csvLineChars (fields : List (List Char)) : List Char :=
  joinComma (fields.map csvFieldChars)

/-- The header row: the column names themselves, CSV-quoted as needed. -/
def csvHeaderLine (columns : List String) : List Char :=
  csvLineChars (columns.map String.toList)

/-- One record's row: its values selected positionally by the column
list (an absent key reads as the empty string). -/
def csvRowLine (columns : List String) (row : Rec) : List Char :=
  csvLineChars (columns.map fun k => (lookupD row k).toList)

/-- Modelled from the spec: `serialize` of a non-empty record sequence —
the header row is the key order of the first record, every record is then
written positionally by that column list, one line per row. -/
def csvStringify (data : List Rec) : String :=
  match data with
  | [] => ""
  | r :: _ =>
      let columns := r.map Prod.fst
      String.mk (List.flatten
        ((csvHeaderLine columns :: data.map (csvRowLine columns)).map (· ++ ['\n'])))

/-- Split a character list at every occurrence of a separator character. -/
def splitOnChar (sep : Char) (cs : List Char) : List (List Char) :=
  splitOnP (fun c => c = sep) cs

/-- Split one CSV line at the unquoted commas (a comma inside a quoted
field does not separate). -/
def splitFields : Bool → List Char → List (List Char)
  | _, [] => [[]]
  | inQ, c :: rest =>
      if c = '"' then
        let r := splitFields (!inQ) rest
        (c :: r.headD []) :: r.tail
      else if c = ',' then
        if inQ then
          let r := splitFields inQ rest
          (c :: r.headD []) :: r.tail
        else [] :: splitFields inQ rest
      else
        let r := splitFields inQ rest
        (c :: r.headD []) :: r.tail

/-- Collapse the doubled quotes inside a quoted field body. -/
def unDouble : List Char → List Char
  | '"' :: '"' :: rest => '"' :: unDouble rest
  | c :: rest => c :: unDouble rest
  | [] => []

/-- Modelled from the spec: one parsed cell — trimmed of surrounding
whitespace (the codec's `trim` option); a quoted cell is unwrapped and its
doubled quotes collapsed. -/
def parseFieldChars (cs : List Char) : List Char :=
  let t := trimChars cs
  if t.head? = some '"' then unDouble (t.drop 1).dropLast else t

/-- Record construction from the non-empty lines: the first line is the
header defining field names, every subsequent line becomes one record
mapping header name to parsed cell. -/
def csvParseLines (lines : List (List Char)) : List Rec :=
  match lines with
  | [] => []
  | h :: rest =>
      let header := (splitFields false h).map fun f => String.mk (parseFieldChars f)
      rest.map fun line =>
        header.zip ((splitFields false line).map fun f => String.mk (parseFieldChars f))

/-- Modelled from the spec: `deserialize` — the first row is the header
defining field names, every subsequent row becomes one record mapping
header name to trimmed cell string, with empty lines skipped. -/
def csvParse (s : String) : List Rec :=
  csvParseLines ((splitOnChar '\n' s.toList).filter (fun l => l ≠ []))

/-- A plain-text CSV value: no character that changes meaning under CSV
quoting or unquoting (no delimiter, quote or newline, and no surrounding
whitespace the codec's trim would strip). -/
def isPlain (s : String) : Bool :=
  s.toList.all (fun c => !csvSpecial c) && trimChars s.toList == s.toList

/-- The two record kinds of the pipeline. -/
inductive RecordKind where
  | career
  | thanks

/-- The required field names of each kind, in column order. -/
def requiredKeys : RecordKind → List String
  | .career => careerKeys
  | .thanks => thanksKeys

/-- The save operation `saveToCSV data filePath` over a file modelled as `Option String`:
a missing or empty record sequence resolves without touching the file;
otherwise the serialized CSV text replaces the file's content. -/
def saveToCSV (data : Option (List Rec)) (file : Option String) : Option String :=
  match data with
  | none => file
  | some rows => if rows.length = 0 then file else some (csvStringify rows)

/-- The load operation `loadFromCSV filePath` over a filesystem modelled as a map from paths
to optional contents: rejects with the `File not found` error when the
path does not exist, otherwise resolves with the parsed records. -/
def loadFromCSV (fs : String → Option String) (filePath : String) :
    Except String (List Rec) :=
  match fs filePath with
  | none => .error ("File not found: " ++ filePath)
  | some content => .ok (csvParse content)

/-! Extraction orchestrator (`main` of the extraction script)

Modelled after both source HTML files have been read successfully (a
failed read throws and aborts the run, which is outside the per-dataset
validation behaviour modelled here). -/

/-- The two CSV output files the orchestrator can write. -/
structure FileSys where
  careerFile : Option String
  thanksFile : Option String

/-- One dataset's pipeline step: validate the extracted records, then
save on success and leave the file untouched on failure.  The returned
flag is the reported outcome. -/
def pipelineStep (validate : JSValue → Bool) (data : List Rec)
    (file : Option String) : Option String × Bool :=
  if validate (.arr data) then (saveToCSV (some data) file, true)
  else (file, false)

/-- The orchestrator body after both extractions: validate and save the
career dataset, then validate and save the thanks dataset; a validation
failure only skips that dataset's write and its success log. -/
def mainPipelines (careerData thanksData : List Rec) (fs : FileSys) :
    FileSys × Bool × Bool :=
  let career := pipelineStep validateCareerData careerData fs.careerFile
  let thanks := pipelineStep validateThanksData thanksData fs.thanksFile
  (⟨career.1, thanks.1⟩, career.2, thanks.2)

/-- The orchestrator body: extract, validate and save both datasets. -/
def runMain (careerDoc thanksDoc : List Node) (fs : FileSys) :
    FileSys × Bool × Bool :=
  mainPipelines (extractCareerData careerDoc) (extractThanksData thanksDoc) fs

/-! Example documents (used by the witnesses) -/

/-- The source cell index each career field is read from. -/
def careerFieldCell : List (String × Nat) :=
  [("no", 0), ("serverName", 1), ("note", 1), ("category", 2), ("count", 3),
   ("department", 4), ("position", 5), ("job", 6), ("term", 7)]

/-- Example document for the career extraction witnesses. -/
def sampleSup : Node := .elem "sup" [("data-note", "Details")] [.text "[Note]"]

/-- Name cell holding both the display name and the annotated `sup`. -/
def sampleNameCell : Node := .elem "td" [] [.text "Test Server ", sampleSup]

/-- One well-formed career table row. -/
def sampleRow : Node :=
  .elem "tr" []
    [.elem "td" [] [.text "1"], sampleNameCell,
     .elem "td" [] [.text "C"], .elem "td" [] [.text "10"],
     .elem "td" [] [.text "D"], .elem "td" [] [.text "P"],
     .elem "td" [] [.text "J"], .elem "td" [] [.text "T"]]

/-- A career page containing exactly `sampleRow`. -/
def sampleCareerDoc : List Node :=
  [.elem "table" [("class", "discord-career-table")] [.elem "tbody" [] [sampleRow]]]

/-- Example gift card for the thanks extraction witness. -/
def sampleCard : Node :=
  .elem "div" [("class", "gift-card"), ("data-type", "nitro")]
    [.elem "div" [("class", "gift-number")] [.text "#1"],
     .elem "div" [("class", "gift-user")] [.text "User"],
     .elem "div" [("class", "gift-card-body")]
       [.elem "span" [("class", "tag")] [.text "Item"]],
     .elem "div" [("class", "gift-meta")]
       [.elem "time" [("datetime", "2024-01-01")] [.text "Jan 1"]]]

/-- Year group titled `2024` holding `sampleCard`. -/
def sampleYear : Node :=
  .elem "section" [("class", "gift-year")]
    [.elem "h2" [("class", "year-title")] [.text "2024"], sampleCard]

/-- A thanks page containing exactly `sampleYear`. -/
def sampleThanksDoc : List Node := [sampleYear]

/-- One plain-text career record (the save-then-load example of the spec). -/
def sampleCareerRec : Rec :=
  [("no", "1"), ("serverName", "S1"), ("note", "N1"), ("category", "C1"),
   ("count", "10"), ("department", "D1"), ("position", "P1"), ("job", "J1"),
   ("term", "T1")]

/-! Shared lemmas -/

theorem hasKey_iff (row : Rec) (k : String) :
    hasKey row k = true ↔ k ∈ row.map Prod.fst := by
  rw [hasKey, List.any_eq_true]
  constructor
  · rintro ⟨p, hp, he⟩
    rw [decide_eq_true_eq] at he
    exact he ▸ List.mem_map_of_mem Prod.fst hp
  · intro hmem
    obtain ⟨p, hp, he⟩ := List.mem_map.mp hmem
    exact ⟨p, hp, by rw [decide_eq_true_eq]; exact he⟩

theorem careerRowRecord_keys (row : Node) :
    (careerRowRecord row).map Prod.fst = careerKeys := rfl

theorem thanksCardRecord_keys (year : String) (card : Node) :
    (thanksCardRecord year card).map Prod.fst = thanksKeys := rfl

/-! Claim theorems -/

/-- C2: `validate(records, kind)` returns true if and only if the
input is actually an array (not a scalar or `null`) and every record in
it contains all of the kind's required field names as keys; in particular
the empty array is valid, and an array containing a record missing at
least one required key yields false. -/
theorem validate_shape_iff :
    (∀ v : JSValue, validateCareerData v = true ↔
      ∃ rows, v = JSValue.arr rows ∧
        ∀ row ∈ rows, ∀ k ∈ careerKeys, hasKey row k = true) ∧
    (∀ v : JSValue, validateThanksData v = true ↔
      ∃ rows, v = JSValue.arr rows ∧
        ∀ row ∈ rows, ∀ k ∈ thanksKeys, hasKey row k = true) ∧
    validateCareerData (.arr []) = true ∧
    validateThanksData (.arr []) = true ∧
    (∀ rows row, row ∈ rows → (∃ k ∈ careerKeys, hasKey row k = false) →
      validateCareerData (.arr rows) = false) ∧
    (∀ rows row, row ∈ rows → (∃ k ∈ thanksKeys, hasKey row k = false) →
      validateThanksData (.arr rows) = false) := by
  have hc : ∀ v : JSValue, validateCareerData v = true ↔
      ∃ rows, v = JSValue.arr rows ∧
        ∀ row ∈ rows, ∀ k ∈ careerKeys, hasKey row k = true := by
    intro v
    cases v with
    | arr rows =>
        by_cases h : rows.length = 0
        · rw [List.length_eq_zero] at h
          subst h
          simp [validateCareerData]
        · simp [validateCareerData, h, List.all_eq_true]
    | null => simp [validateCareerData]
    | str s => simp [validateCareerData]
    | num n => simp [validateCareerData]
    | bool b => simp [validateCareerData]
  have ht : ∀ v : JSValue, validateThanksData v = true ↔
      ∃ rows, v = JSValue.arr rows ∧
        ∀ row ∈ rows, ∀ k ∈ thanksKeys, hasKey row k = true := by
    intro v
    cases v with
    | arr rows =>
        by_cases h : rows.length = 0
        · rw [List.length_eq_zero] at h
          subst h
          simp [validateThanksData]
        · simp [validateThanksData, h, List.all_eq_true]
    | null => simp [validateThanksData]
    | str s => simp [validateThanksData]
    | num n => simp [validateThanksData]
    | bool b => simp [validateThanksData]
  refine ⟨hc, ht, rfl, rfl, ?_, ?_⟩
  · intro rows row hrow ⟨k, hk, hfalse⟩
    cases hv : validateCareerData (.arr rows) with
    | false => rfl
    | true =>
        obtain ⟨rows', heq, hall⟩ := (hc (.arr rows)).mp hv
        cases heq
        have := hall row hrow k hk
        rw [this] at hfalse
        exact absurd hfalse (by simp)
  · intro rows row hrow ⟨k, hk, hfalse⟩
    cases hv : validateThanksData (.arr rows) with
    | false => rfl
    | true =>
        obtain ⟨rows', heq, hall⟩ := (ht (.arr rows)).mp hv
        cases heq
        have := hall row hrow k hk
        rw [this] at hfalse
        exact absurd hfalse (by simp)

/-- C7: saving an empty (or absent) record sequence is a no-op: no
file is produced (a missing file stays missing, an existing file is left
as it is) and no header is written; the operation resolves rather than
raising. -/
theorem save_empty_noop :
    (∀ file : Option String, saveToCSV (some []) file = file) ∧
    (∀ file : Option String, saveToCSV none file = file) ∧
    saveToCSV (some []) none = none := by
  exact ⟨fun _ => rfl, fun _ => rfl, rfl⟩

/-- C9: the file-based `loadFromCSV` rejects with an explicit
`File not found` error — and in particular never resolves with a record
sequence — whenever the target path does not exist at parse time. -/
theorem load_missing_file_error (fs : String → Option String) (filePath : String)
    (habsent : fs filePath = none) :
    loadFromCSV fs filePath = .error ("File not found: " ++ filePath) ∧
    ∀ records, loadFromCSV fs filePath ≠ .ok records := by
  refine ⟨?_, ?_⟩
  · unfold loadFromCSV
    rw [habsent]
  · intro records h
    unfold loadFromCSV at h
    rw [habsent] at h
    exact Except.noConfusion h

/-- Witness for C9 at a concrete empty filesystem and path. -/
theorem load_missing_file_error_witness :
    loadFromCSV (fun _ => none) "career_data.csv" =
      .error ("File not found: " ++ "career_data.csv") ∧
    ∀ records, loadFromCSV (fun _ => none) "career_data.csv" ≠ .ok records :=
  load_missing_file_error (fun _ => none) "career_data.csv" rfl

/-- C10: on every document tree (any HTML input string parses to
one), the career extractor's output satisfies the career validator and
the thanks extractor's output satisfies the thanks validator: every
emitted record is built with all of its kind's required keys present. -/
theorem extracted_records_validate (doc : List Node) :
    validateCareerData (.arr (extractCareerData doc)) = true ∧
    validateThanksData (.arr (extractThanksData doc)) = true := by
  constructor
  · show (if (extractCareerData doc).length = 0 then true
      else (extractCareerData doc).all fun row => careerKeys.all (hasKey row)) = true
    split
    · rfl
    · rw [List.all_eq_true]
      intro row hrow
      rw [List.all_eq_true]
      intro k hk
      rw [hasKey_iff]
      rw [extractCareerData, List.mem_filterMap] at hrow
      obtain ⟨r, _, hr⟩ := hrow
      by_cases hc : (rowCells r).isEmpty <;> simp [hc] at hr
      rw [← hr, careerRowRecord_keys]
      exact hk
  · show (if (extractThanksData doc).length = 0 then true
      else (extractThanksData doc).all fun row => thanksKeys.all (hasKey row)) = true
    split
    · rfl
    · rw [List.all_eq_true]
      intro row hrow
      rw [List.all_eq_true]
      intro k hk
      rw [hasKey_iff]
      rw [extractThanksData, List.mem_flatMap] at hrow
      obtain ⟨ys, _, hys⟩ := hrow
      obtain ⟨card, _, hcard⟩ := List.mem_map.mp hys
      rw [← hcard, thanksCardRecord_keys]
      exact hk

/-- C3: when one dataset's records fail validation the orchestrator
leaves that dataset's output file untouched and reports the failure,
while the other dataset's pipeline still validates and writes exactly as
it would on its own; symmetrically in the other direction. -/
theorem main_isolates_datasets (careerData thanksData : List Rec) (fs : FileSys) :
    (validateCareerData (.arr careerData) = false →
      (mainPipelines careerData thanksData fs).1.careerFile = fs.careerFile ∧
      (mainPipelines careerData thanksData fs).2.1 = false ∧
      (validateThanksData (.arr thanksData) = true →
        (mainPipelines careerData thanksData fs).1.thanksFile =
          saveToCSV (some thanksData) fs.thanksFile ∧
        (mainPipelines careerData thanksData fs).2.2 = true)) ∧
    (validateThanksData (.arr thanksData) = false →
      (mainPipelines careerData thanksData fs).1.thanksFile = fs.thanksFile ∧
      (mainPipelines careerData thanksData fs).2.2 = false ∧
      (validateCareerData (.arr careerData) = true →
        (mainPipelines careerData thanksData fs).1.careerFile =
          saveToCSV (some careerData) fs.careerFile ∧
        (mainPipelines careerData thanksData fs).2.1 = true)) := by
  constructor
  · intro hbad
    refine ⟨?_, ?_, ?_⟩
    · simp [mainPipelines, pipelineStep, hbad]
    · simp [mainPipelines, pipelineStep, hbad]
    · intro hgood
      constructor
      · simp [mainPipelines, pipelineStep, hgood]
      · simp [mainPipelines, pipelineStep, hgood]
  · intro hbad
    refine ⟨?_, ?_, ?_⟩
    · simp [mainPipelines, pipelineStep, hbad]
    · simp [mainPipelines, pipelineStep, hbad]
    · intro hgood
      constructor
      · simp [mainPipelines, pipelineStep, hgood]
      · simp [mainPipelines, pipelineStep, hgood]

/-! Career extraction claims -/

theorem cellText_oob (cells : List Node) (i : Nat) (h : cells.length ≤ i) :
    cellText cells i = "" := by
  simp only [cellText, List.get?_eq_none.mpr h]

theorem rowServerName_oob (cells : List Node) (h : cells.length ≤ 1) :
    rowServerName cells = "" := by
  simp only [rowServerName, List.get?_eq_none.mpr h]

theorem rowSups_oob (cells : List Node) (h : cells.length ≤ 1) :
    rowSups cells = [] := by
  simp only [rowSups, List.get?_eq_none.mpr h]

theorem rowNote_oob (cells : List Node) (h : cells.length ≤ 1) :
    rowNote cells = "" := by
  simp [rowNote, rowSups_oob cells h]

/-- C5: extraction does not raise on malformed rows: a body row with
zero data cells contributes no record at all, and in any row each field
whose source cell index is beyond the available cells is read as the
empty string instead of failing. -/
theorem career_malformed_rows (doc : List Node) :
    extractCareerData doc =
      ((careerTableRows doc).filter fun r => !(rowCells r).isEmpty).map careerRowRecord ∧
    ∀ row : Node, ∀ k i, (k, i) ∈ careerFieldCell →
      (rowCells row).length ≤ i → lookupD (careerRowRecord row) k = "" := by
  constructor
  · rw [extractCareerData]
    generalize careerTableRows doc = l
    induction l with
    | nil => rfl
    | cons h t ih =>
        rw [List.filterMap_cons, List.filter_cons]
        by_cases hc : (rowCells h).isEmpty
        · simp [hc, ih]
        · simp [hc, ih]
  · intro row k i hki hle
    have e0 : lookupD (careerRowRecord row) "no" = cellText (rowCells row) 0 := rfl
    have e1 : lookupD (careerRowRecord row) "serverName" = rowServerName (rowCells row) := rfl
    have e2 : lookupD (careerRowRecord row) "note" = rowNote (rowCells row) := rfl
    have e3 : lookupD (careerRowRecord row) "category" = cellText (rowCells row) 2 := rfl
    have e4 : lookupD (careerRowRecord row) "count" = cellText (rowCells row) 3 := rfl
    have e5 : lookupD (careerRowRecord row) "department" = cellText (rowCells row) 4 := rfl
    have e6 : lookupD (careerRowRecord row) "position" = cellText (rowCells row) 5 := rfl
    have e7 : lookupD (careerRowRecord row) "job" = cellText (rowCells row) 6 := rfl
    have e8 : lookupD (careerRowRecord row) "term" = cellText (rowCells row) 7 := rfl
    simp only [careerFieldCell, List.mem_cons, List.not_mem_nil, or_false,
      Prod.mk.injEq] at hki
    rcases hki with ⟨hk, hi⟩ | ⟨hk, hi⟩ | ⟨hk, hi⟩ | ⟨hk, hi⟩ | ⟨hk, hi⟩ |
      ⟨hk, hi⟩ | ⟨hk, hi⟩ | ⟨hk, hi⟩ | ⟨hk, hi⟩ <;> subst hk <;> subst hi
    · rw [e0]; exact cellText_oob _ _ hle
    · rw [e1]; exact rowServerName_oob _ hle
    · rw [e2]; exact rowNote_oob _ hle
    · rw [e3]; exact cellText_oob _ _ hle
    · rw [e4]; exact cellText_oob _ _ hle
    · rw [e5]; exact cellText_oob _ _ hle
    · rw [e6]; exact cellText_oob _ _ hle
    · rw [e7]; exact cellText_oob _ _ hle
    · rw [e8]; exact cellText_oob _ _ hle

/-- C4: for a career table row whose name cell (`cells[1]`) contains a
nested `sup` element, `serverName` is the trimmed cell text with the
`sup` subtree removed and `note` combines the marker text with the
`data-note` detail (`"<marker> <detail>"`, or the marker alone when the
detail is absent or empty); with no `sup` element, `note` is empty and
`serverName` is the full trimmed cell text. -/
theorem career_note_extraction (doc : List Node) (row : Node)
    (hrow : row ∈ careerTableRows doc) (hcells : rowCells row ≠ []) :
    careerRowRecord row ∈ extractCareerData doc ∧
    ∀ c, (rowCells row).get? 1 = some c →
      ((descendants c).filter (tagIs "sup") = [] →
        lookupD (careerRowRecord row) "serverName" = jsTrim (textContent c) ∧
        lookupD (careerRowRecord row) "note" = "") ∧
      (∀ s ss, (descendants c).filter (tagIs "sup") = s :: ss →
        lookupD (careerRowRecord row) "serverName" = jsTrim (textNoSup c) ∧
        lookupD (careerRowRecord row) "note" =
          (if (attrOf s "data-note").getD "" = "" then jsTrim (selText (s :: ss))
           else jsTrim (selText (s :: ss)) ++ " " ++ (attrOf s "data-note").getD "")) := by
  have e1 : lookupD (careerRowRecord row) "serverName" = rowServerName (rowCells row) := rfl
  have e2 : lookupD (careerRowRecord row) "note" = rowNote (rowCells row) := rfl
  constructor
  · rw [extractCareerData, List.mem_filterMap]
    refine ⟨row, hrow, ?_⟩
    rw [if_neg]
    intro h
    exact hcells (List.isEmpty_iff.mp h)
  · intro c hget
    constructor
    · intro hsup
      constructor
      · rw [e1]
        simp only [rowServerName, hget, hsup, List.isEmpty_nil, if_true]
      · rw [e2]
        simp only [rowNote, rowSups, hget, hsup, List.isEmpty_nil, if_true]
    · intro s ss hsup
      constructor
      · rw [e1]
        simp only [rowServerName, hget, hsup, List.isEmpty_cons,
          Bool.false_eq_true, if_false]
      · rw [e2]
        simp only [rowNote, rowSups, rowDetail, rowMarker, rowSups, hget, hsup,
          List.isEmpty_cons, Bool.false_eq_true, if_false, List.head?_cons,
          Option.getD_some]

/-- Witness for C4 on the sample row: the `sup` marker is stripped from
the name and combined with its detail into the note. -/
theorem career_note_extraction_witness :
    sampleRow ∈ careerTableRows sampleCareerDoc ∧
    lookupD (careerRowRecord sampleRow) "serverName" = "Test Server" ∧
    lookupD (careerRowRecord sampleRow) "note" = "[Note] Details" := by
  have hrow : sampleRow ∈ careerTableRows sampleCareerDoc := by
    rw [show careerTableRows sampleCareerDoc = [sampleRow] from rfl]
    exact List.mem_singleton.mpr rfl
  have hcells : rowCells sampleRow ≠ [] := by
    intro h
    have := congrArg List.length h
    rw [show (rowCells sampleRow).length = 8 from rfl] at this
    exact absurd this (by decide)
  have h := career_note_extraction sampleCareerDoc sampleRow hrow hcells
  have h2 := (h.2 sampleNameCell rfl).2 sampleSup [] rfl
  refine ⟨hrow, ?_, ?_⟩
  · rw [h2.1]; rfl
  · rw [h2.2]; rfl

/-! Thanks extraction claim -/

/-- C6: for every gift card inside a year group, `type` is the card's
`data-type` attribute when present and non-empty and the literal
`"unknown"` when missing or empty; `date` is the first
`.gift-meta time` descendant's `datetime` attribute, defaulting to the
empty string; and a card missing any sub-element still yields a record
(in the extractor's output) whose corresponding field is the empty
string. -/
theorem thanks_card_fields (doc : List Node) (ys card : Node)
    (hys : ys ∈ descendantsList doc) (hycls : hasCls "gift-year" ys = true)
    (hcard : card ∈ findCls ys "gift-card") :
    thanksCardRecord (yearTitle ys) card ∈ extractThanksData doc ∧
    (∀ t, attrOf card "data-type" = some t → t ≠ "" →
      lookupD (thanksCardRecord (yearTitle ys) card) "type" = t) ∧
    (attrOf card "data-type" = none ∨ attrOf card "data-type" = some "" →
      lookupD (thanksCardRecord (yearTitle ys) card) "type" = "unknown") ∧
    (∀ tn, (cardMetaTimes card).head? = some tn →
      lookupD (thanksCardRecord (yearTitle ys) card) "date" =
        (attrOf tn "datetime").getD "") ∧
    (cardMetaTimes card = [] →
      lookupD (thanksCardRecord (yearTitle ys) card) "date" = "" ∧
      lookupD (thanksCardRecord (yearTitle ys) card) "displayDate" = "") ∧
    (findCls card "gift-number" = [] →
      lookupD (thanksCardRecord (yearTitle ys) card) "number" = "") ∧
    (findCls card "gift-user" = [] →
      lookupD (thanksCardRecord (yearTitle ys) card) "user" = "") ∧
    (cardBodyTags card = [] →
      lookupD (thanksCardRecord (yearTitle ys) card) "item" = "") := by
  have etype : lookupD (thanksCardRecord (yearTitle ys) card) "type" = cardType card := rfl
  have edate : lookupD (thanksCardRecord (yearTitle ys) card) "date" = cardDate card := rfl
  have edisp : lookupD (thanksCardRecord (yearTitle ys) card) "displayDate" =
      jsTrim (selText (cardMetaTimes card)) := rfl
  have enum : lookupD (thanksCardRecord (yearTitle ys) card) "number" =
      cardClsText card "gift-number" := rfl
  have euser : lookupD (thanksCardRecord (yearTitle ys) card) "user" =
      cardClsText card "gift-user" := rfl
  have eitem : lookupD (thanksCardRecord (yearTitle ys) card) "item" =
      jsTrim (selText (cardBodyTags card)) := rfl
  refine ⟨?_, ?_, ?_, ?_, ?_, ?_, ?_, ?_⟩
  · rw [extractThanksData, List.mem_flatMap]
    exact ⟨ys, List.mem_filter.mpr ⟨hys, hycls⟩,
      List.mem_map_of_mem (thanksCardRecord (yearTitle ys)) hcard⟩
  · intro t ht htne
    rw [etype, cardType, ht]
    exact if_neg htne
  · intro h
    rw [etype, cardType]
    cases h with
    | inl h => rw [h]
    | inr h => rw [h]; exact if_pos rfl
  · intro tn htn
    rw [edate]
    simp only [cardDate, htn]
  · intro h
    constructor
    · rw [edate]; simp only [cardDate, h, List.head?_nil]
    · rw [edisp, h]; rfl
  · intro h
    rw [enum, cardClsText, h]; rfl
  · intro h
    rw [euser, cardClsText, h]; rfl
  · intro h
    rw [eitem, h]; rfl

/-- Witness for C6 on the sample card: explicit type attribute and
machine timestamp are carried into the record. -/
theorem thanks_card_fields_witness :
    sampleCard ∈ findCls sampleYear "gift-card" ∧
    lookupD (thanksCardRecord (yearTitle sampleYear) sampleCard) "type" = "nitro" ∧
    lookupD (thanksCardRecord (yearTitle sampleYear) sampleCard) "date" = "2024-01-01" ∧
    thanksCardRecord (yearTitle sampleYear) sampleCard ∈ extractThanksData sampleThanksDoc := by
  have hys : sampleYear ∈ descendantsList sampleThanksDoc := by
    rw [show descendantsList sampleThanksDoc = sampleYear :: descendants sampleYear from rfl]
    exact List.mem_cons_self _ _
  have hcard : sampleCard ∈ findCls sampleYear "gift-card" := by
    rw [show findCls sampleYear "gift-card" = [sampleCard] from rfl]
    exact List.mem_singleton.mpr rfl
  have h := thanks_card_fields sampleThanksDoc sampleYear sampleCard hys rfl hcard
  refine ⟨hcard, ?_, ?_, h.1⟩
  · exact h.2.1 "nitro" rfl (by decide)
  · rw [h.2.2.2.1 (Node.elem "time" [("datetime", "2024-01-01")] [.text "Jan 1"]) rfl]
    rfl

/-! CSV codec lemmas -/

theorem toList_mk (l : List Char) : (String.mk l).toList = l := rfl

theorem mk_toList (s : String) : String.mk s.toList = s := rfl

theorem cons_headD_tail {α : Type} (l : List α) (h : l ≠ []) (d : α) :
    l.headD d :: l.tail = l := by
  cases l with
  | nil => exact absurd rfl h
  | cons a t => rfl

theorem splitOnP_ne_nil (p : Char → Bool) (cs : List Char) : splitOnP p cs ≠ [] := by
  cases cs with
  | nil => exact List.cons_ne_nil _ _
  | cons c rest =>
      simp only [splitOnP]
      split <;> exact List.cons_ne_nil _ _

theorem splitOnP_no_sep (p : Char → Bool) (xs : List Char)
    (h : ∀ c ∈ xs, p c = false) : splitOnP p xs = [xs] := by
  induction xs with
  | nil => rfl
  | cons c rest ih =>
      have hc := h c (List.mem_cons_self _ _)
      have hrest := ih fun d hd => h d (List.mem_cons_of_mem _ hd)
      simp only [splitOnP, hc, Bool.false_eq_true, if_false, hrest,
        List.headD_cons, List.tail_cons]

theorem splitOnP_break (p : Char → Bool) (xs ys : List Char) (sep : Char)
    (hxs : ∀ c ∈ xs, p c = false) (hsep : p sep = true) :
    splitOnP p (xs ++ sep :: ys) = xs :: splitOnP p ys := by
  induction xs with
  | nil => simp [splitOnP, hsep]
  | cons c rest ih =>
      have hc := hxs c (List.mem_cons_self _ _)
      have ihr := ih fun d hd => hxs d (List.mem_cons_of_mem _ hd)
      simp only [List.cons_append, splitOnP, hc, Bool.false_eq_true, if_false,
        List.append_eq, ihr, List.headD_cons, List.tail_cons]

theorem splitOnChar_lines (sep : Char) (lines : List (List Char))
    (h : ∀ l ∈ lines, ∀ c ∈ l, c ≠ sep) :
    splitOnChar sep (List.flatten (lines.map (· ++ [sep]))) = lines ++ [[]] := by
  unfold splitOnChar
  induction lines with
  | nil => rfl
  | cons l ls ih =>
      have hl : ∀ c ∈ l, decide (c = sep) = false := fun c hc =>
        decide_eq_false (h l (List.mem_cons_self _ _) c hc)
      have ihr := ih fun m hm c hc => h m (List.mem_cons_of_mem _ hm) c hc
      rw [List.map_cons, List.flatten_cons, List.append_assoc, List.singleton_append,
        splitOnP_break _ _ _ _ hl (by simp), ihr, List.cons_append]

theorem splitFields_ne_nil (b : Bool) (cs : List Char) : splitFields b cs ≠ [] := by
  cases cs with
  | nil => exact List.cons_ne_nil _ _
  | cons c rest =>
      simp only [splitFields]
      split
      · exact List.cons_ne_nil _ _
      · split
        · split
          · exact List.cons_ne_nil _ _
          · exact List.cons_ne_nil _ _
        · exact List.cons_ne_nil _ _

theorem splitFields_clean_cons (c : Char) (cs : List Char)
    (hq : c ≠ '"') (hc : c ≠ ',') :
    splitFields false (c :: cs) =
      (c :: (splitFields false cs).headD []) :: (splitFields false cs).tail := by
  simp only [splitFields, if_neg hq, if_neg hc]

theorem splitFields_comma_cons (cs : List Char) :
    splitFields false (',' :: cs) = [] :: splitFields false cs := rfl

theorem splitFields_append (xs ys : List Char)
    (h : ∀ c ∈ xs, c ≠ '"' ∧ c ≠ ',') :
    splitFields false (xs ++ ys) =
      (xs ++ (splitFields false ys).headD []) :: (splitFields false ys).tail := by
  induction xs with
  | nil =>
      rw [List.nil_append, List.nil_append]
      exact (cons_headD_tail _ (splitFields_ne_nil _ _) _).symm
  | cons c rest ih =>
      have hc := h c (List.mem_cons_self _ _)
      have ihr := ih fun d hd => h d (List.mem_cons_of_mem _ hd)
      rw [List.cons_append, splitFields_clean_cons c _ hc.1 hc.2, ihr]
      simp only [List.headD_cons, List.tail_cons, List.cons_append]

theorem splitFields_join (fields : List (List Char)) (hne : fields ≠ [])
    (h : ∀ f ∈ fields, ∀ c ∈ f, c ≠ '"' ∧ c ≠ ',') :
    splitFields false (joinComma fields) = fields := by
  induction fields with
  | nil => exact absurd rfl hne
  | cons f rest ih =>
      cases rest with
      | nil =>
          show splitFields false f = [f]
          have h2 := splitFields_append f []
            (fun c hc => h f (List.mem_cons_self _ _) c hc)
          rw [List.append_nil] at h2
          rw [h2, show splitFields false ([] : List Char) = [[]] from rfl]
          simp only [List.headD_cons, List.tail_cons, List.append_nil]
      | cons g fs =>
          show splitFields false (f ++ ',' :: joinComma (g :: fs)) = f :: g :: fs
          rw [splitFields_append f _ (fun c hc => h f (List.mem_cons_self _ _) c hc),
            splitFields_comma_cons]
          simp only [List.headD_cons, List.tail_cons, List.append_nil]
          rw [ih (List.cons_ne_nil _ _)
            (fun m hm c hc => h m (List.mem_cons_of_mem _ hm) c hc)]

theorem parseFieldChars_plain (v : List Char)
    (htrim : trimChars v = v) (hq : '"' ∉ v) :
    parseFieldChars v = v := by
  have hhead : ¬(v.head? = some '"') := by
    cases v with
    | nil => simp
    | cons c rest =>
        simp only [List.head?_cons, Option.some.injEq]
        intro he
        subst he
        exact hq (List.mem_cons_self _ _)
  simp only [parseFieldChars, htrim, if_neg hhead]

theorem csvFieldChars_plain (cs : List Char) (h : ∀ c ∈ cs, csvSpecial c = false) :
    csvFieldChars cs = cs := by
  have hany : cs.any csvSpecial = false :=
    List.any_eq_false.mpr fun c hc => by rw [h c hc]; exact Bool.false_ne_true
  simp only [csvFieldChars, hany, Bool.false_eq_true, if_false]

theorem joinComma_two_ne_nil (fields : List (List Char)) (h : 2 ≤ fields.length) :
    joinComma fields ≠ [] := by
  cases fields with
  | nil => simp at h
  | cons f rest =>
      cases rest with
      | nil => simp at h
      | cons g fs =>
          show f ++ ',' :: joinComma (g :: fs) ≠ []
          simp

theorem mem_joinComma (fields : List (List Char)) (c : Char)
    (h : c ∈ joinComma fields) : (∃ f ∈ fields, c ∈ f) ∨ c = ',' := by
  induction fields with
  | nil => simp [joinComma] at h
  | cons f rest ih =>
      cases rest with
      | nil => exact Or.inl ⟨f, List.mem_cons_self _ _, h⟩
      | cons g fs =>
          have h' : c ∈ f ++ ',' :: joinComma (g :: fs) := h
          rcases List.mem_append.mp h' with hf | hrest
          · exact Or.inl ⟨f, List.mem_cons_self _ _, hf⟩
          · rcases List.mem_cons.mp hrest with hc | hjc
            · exact Or.inr hc
            · rcases ih hjc with ⟨m, hm, hcm⟩ | hc
              · exact Or.inl ⟨m, List.mem_cons_of_mem _ hm, hcm⟩
              · exact Or.inr hc

theorem lookupD_cons_self (p : String × String) (t : Rec) :
    lookupD (p :: t) p.1 = p.2 := by
  have hf : List.find? (fun q => decide (q.1 = p.1)) (p :: t) = some p :=
    List.find?_cons_of_pos _ (by simp)
  simp only [lookupD, hf]
  rfl

theorem lookupD_cons_of_ne (p : String × String) (t : Rec) (k : String)
    (h : p.1 ≠ k) : lookupD (p :: t) k = lookupD t k := by
  have hf : List.find? (fun q => decide (q.1 = k)) (p :: t) =
      List.find? (fun q => decide (q.1 = k)) t :=
    List.find?_cons_of_neg _ (by simpa using h)
  simp only [lookupD, hf]

theorem map_lookupD (row : Rec) (hnd : (row.map Prod.fst).Nodup) :
    (row.map Prod.fst).map (fun k => lookupD row k) = row.map Prod.snd := by
  induction row with
  | nil => rfl
  | cons p t ih =>
      rw [List.map_cons, List.map_cons, List.map_cons]
      rw [List.map_cons, List.nodup_cons] at hnd
      congr 1
      · exact lookupD_cons_self p t
      · rw [← ih hnd.2]
        refine List.map_congr_left fun k hk => ?_
        exact lookupD_cons_of_ne p t k fun he => hnd.1 (he ▸ hk)

theorem zip_fst_snd (row : Rec) :
    (row.map Prod.fst).zip (row.map Prod.snd) = row := by
  induction row with
  | nil => rfl
  | cons p t ih => rw [List.map_cons, List.map_cons, List.zip_cons_cons, ih]

theorem lookupD_isPlain (row : Rec) (k : String)
    (h : ∀ p ∈ row, isPlain p.2 = true) : isPlain (lookupD row k) = true := by
  rw [lookupD]
  cases hfind : row.find? (fun p => p.1 = k) with
  | none => rfl
  | some p =>
      show isPlain ((Option.map Prod.snd (some p)).getD "") = true
      exact h p (List.mem_of_find?_eq_some hfind)

theorem all_not_special (l : List Char)
    (h : l.all (fun c => !csvSpecial c) = true) : ∀ c ∈ l, csvSpecial c = false :=
  fun c hc => by simpa using List.all_eq_true.mp h c hc

theorem not_special_chars {c : Char} (h : csvSpecial c = false) :
    c ≠ ',' ∧ c ≠ '"' ∧ c ≠ '\n' ∧ c ≠ '\r' := by
  rw [csvSpecial] at h
  simp only [Bool.or_eq_false_iff, decide_eq_false_iff_not] at h
  exact ⟨h.1.1.1, h.1.1.2, h.1.2, h.2⟩

theorem isPlain_spec (s : String) (h : isPlain s = true) :
    s.toList.all (fun c => !csvSpecial c) = true ∧ trimChars s.toList = s.toList := by
  rw [isPlain, Bool.and_eq_true] at h
  exact ⟨h.1, by simpa using h.2⟩

theorem lookupD_all_special (row : Rec) (k : String)
    (h : ∀ p ∈ row, (p.2).toList.all (fun c => !csvSpecial c) = true) :
    (lookupD row k).toList.all (fun c => !csvSpecial c) = true := by
  rw [lookupD]
  cases hfind : row.find? (fun p => p.1 = k) with
  | none => rfl
  | some p =>
      show ((Option.map Prod.snd (some p)).getD "").toList.all _ = true
      exact h p (List.mem_of_find?_eq_some hfind)

theorem csvLineChars_plain (fields : List (List Char))
    (h : ∀ f ∈ fields, ∀ c ∈ f, csvSpecial c = false) :
    csvLineChars fields = joinComma fields := by
  rw [csvLineChars]
  have he : fields.map csvFieldChars = fields.map id :=
    List.map_congr_left fun f hf => csvFieldChars_plain f (h f hf)
  rw [he, List.map_id]

theorem parse_line_plain (fields : List (List Char)) (hne2 : 2 ≤ fields.length)
    (hplainf : ∀ f ∈ fields,
      f.all (fun c => !csvSpecial c) = true ∧ trimChars f = f) :
    (splitFields false (joinComma fields)).map (fun f => String.mk (parseFieldChars f)) =
      fields.map String.mk := by
  have hclean : ∀ f ∈ fields, ∀ c ∈ f, c ≠ '"' ∧ c ≠ ',' := by
    intro f hf c hc
    have hsp := not_special_chars (all_not_special f (hplainf f hf).1 c hc)
    exact ⟨hsp.2.1, hsp.1⟩
  have hnn : fields ≠ [] := by
    intro h
    rw [h] at hne2
    simp at hne2
  rw [splitFields_join fields hnn hclean]
  refine List.map_congr_left fun f hf => ?_
  have hnoq : '"' ∉ f := by
    intro hq
    exact (not_special_chars (all_not_special f (hplainf f hf).1 _ hq)).2.1 rfl
  rw [parseFieldChars_plain f (hplainf f hf).2 hnoq]

theorem stringify_lines_aux (r : Rec) (rs : List Rec)
    (hvals : ∀ rec ∈ r :: rs, ∀ p ∈ rec,
      (p.2).toList.all (fun c => !csvSpecial c) = true)
    (hkeys : ∀ k ∈ r.map Prod.fst,
      k.toList.all (fun c => !csvSpecial c) = true) :
    splitOnChar '\n' (csvStringify (r :: rs)).toList =
      (joinComma ((r.map Prod.fst).map String.toList) ::
        (r :: rs).map fun row =>
          joinComma ((r.map Prod.fst).map fun k => (lookupD row k).toList)) ++ [[]] := by
  have hheader : csvHeaderLine (r.map Prod.fst) =
      joinComma ((r.map Prod.fst).map String.toList) := by
    apply csvLineChars_plain
    intro f hf c hc
    obtain ⟨k, hk, rfl⟩ := List.mem_map.mp hf
    exact all_not_special _ (hkeys k hk) c hc
  have hrow : ∀ row ∈ r :: rs, csvRowLine (r.map Prod.fst) row =
      joinComma ((r.map Prod.fst).map fun k => (lookupD row k).toList) := by
    intro row hrowmem
    apply csvLineChars_plain
    intro f hf c hc
    obtain ⟨k, hk, rfl⟩ := List.mem_map.mp hf
    exact all_not_special _
      (lookupD_all_special row k (hvals row hrowmem)) c hc
  show splitOnChar '\n' (String.mk (List.flatten
      ((csvHeaderLine (r.map Prod.fst) ::
        (r :: rs).map (csvRowLine (r.map Prod.fst))).map (· ++ ['\n'])))).toList = _
  rw [toList_mk, hheader, List.map_congr_left hrow]
  apply splitOnChar_lines
  intro l hl c hc hceq
  subst hceq
  rcases List.mem_cons.mp hl with hl1 | hl2
  · subst hl1
    rcases mem_joinComma _ _ hc with ⟨f, hf, hcf⟩ | hcomma
    · obtain ⟨k, hk, rfl⟩ := List.mem_map.mp hf
      have := all_not_special _ (hkeys k hk) _ hcf
      simp [csvSpecial] at this
    · exact absurd hcomma (by decide)
  · obtain ⟨row, hrowmem, rfl⟩ := List.mem_map.mp hl2
    rcases mem_joinComma _ _ hc with ⟨f, hf, hcf⟩ | hcomma
    · obtain ⟨k, hk, rfl⟩ := List.mem_map.mp hf
      have := all_not_special _
        (lookupD_all_special row k (hvals row hrowmem)) _ hcf
      simp [csvSpecial] at this
    · exact absurd hcomma (by decide)

/-- C8: for a non-empty record sequence the serialized output's lines
are: a header row that is exactly the first record's keys in key order,
then one line per record (the first included) holding that record's
values selected positionally by the first record's column list — here on
plain values, where standard CSV quoting leaves every field verbatim
(the trailing empty chunk is the final newline). -/
theorem serialize_header_and_rows (r : Rec) (rs : List Rec)
    (hvals : ∀ rec ∈ r :: rs, ∀ p ∈ rec,
      (p.2).toList.all (fun c => !csvSpecial c) = true)
    (hkeys : ∀ k ∈ r.map Prod.fst,
      k.toList.all (fun c => !csvSpecial c) = true) :
    splitOnChar '\n' (csvStringify (r :: rs)).toList =
      (joinComma ((r.map Prod.fst).map String.toList) ::
        (r :: rs).map fun row =>
          joinComma ((r.map Prod.fst).map fun k => (lookupD row k).toList)) ++ [[]] :=
  stringify_lines_aux r rs hvals hkeys

/-- Witness for C8: the single-record career example serializes to the
career header line followed by its one value line. -/
theorem serialize_header_and_rows_witness :
    splitOnChar '\n' (csvStringify [sampleCareerRec]).toList =
      (joinComma ((sampleCareerRec.map Prod.fst).map String.toList) ::
        [sampleCareerRec].map fun row =>
          joinComma ((sampleCareerRec.map Prod.fst).map fun k =>
            (lookupD row k).toList)) ++ [[]] :=
  serialize_header_and_rows sampleCareerRec [] (by decide) (by decide)

/-- C1: round trip — for every non-empty record sequence of a single
kind whose field values are plain text, deserializing the CSV produced by
serializing the sequence yields the sequence back field-for-field (all
values strings on both sides). -/
theorem csv_roundtrip (kind : RecordKind) (R : List Rec) (hne : R ≠ [])
    (hkeys : ∀ rec ∈ R, rec.map Prod.fst = requiredKeys kind)
    (hplain : ∀ rec ∈ R, ∀ p ∈ rec, isPlain p.2 = true) :
    csvParse (csvStringify R) = R := by
  cases R with
  | nil => exact absurd rfl hne
  | cons r rs =>
  have hks := hkeys r (List.mem_cons_self _ _)
  have hksplain : ∀ k ∈ r.map Prod.fst,
      k.toList.all (fun c => !csvSpecial c) = true := by
    rw [hks]; cases kind <;> decide
  have hkstrim : ∀ k ∈ r.map Prod.fst, trimChars k.toList = k.toList := by
    rw [hks]; cases kind <;> decide
  have hksnodup : (r.map Prod.fst).Nodup := by
    rw [hks]; cases kind <;> decide
  have hkslen : 2 ≤ (r.map Prod.fst).length := by
    rw [hks]; cases kind <;> decide
  have hvals : ∀ rec ∈ r :: rs, ∀ p ∈ rec,
      (p.2).toList.all (fun c => !csvSpecial c) = true :=
    fun rec hrec p hp => (isPlain_spec _ (hplain rec hrec p hp)).1
  have hsplit := stringify_lines_aux r rs hvals hksplain
  have hL : ∀ l ∈ (joinComma ((r.map Prod.fst).map String.toList) ::
      (r :: rs).map fun row =>
        joinComma ((r.map Prod.fst).map fun k => (lookupD row k).toList)),
      l ≠ [] := by
    intro l hl
    rcases List.mem_cons.mp hl with rfl | hl2
    · exact joinComma_two_ne_nil _ (by simpa using hkslen)
    · obtain ⟨row, _, rfl⟩ := List.mem_map.mp hl2
      exact joinComma_two_ne_nil _ (by simpa using hkslen)
  unfold csvParse
  rw [hsplit, List.filter_append,
    show List.filter (fun l => decide (l ≠ [])) [([] : List Char)] = [] from rfl,
    List.append_nil,
    List.filter_eq_self.mpr (fun a ha => by simpa using hL a ha)]
  simp only [csvParseLines]
  have hheader : (splitFields false
      (joinComma ((r.map Prod.fst).map String.toList))).map
        (fun f => String.mk (parseFieldChars f)) = r.map Prod.fst := by
    rw [parse_line_plain _ (by simpa using hkslen)
      (fun f hf => by
        obtain ⟨k, hk, rfl⟩ := List.mem_map.mp hf
        exact ⟨hksplain k hk, hkstrim k hk⟩)]
    rw [List.map_map]
    have hm : List.map (String.mk ∘ String.toList) (r.map Prod.fst) =
        List.map id (r.map Prod.fst) :=
      List.map_congr_left fun k _ => mk_toList k
    rw [hm, List.map_id]
  rw [hheader, List.map_map]
  have hrow : ∀ row ∈ r :: rs,
      (r.map Prod.fst).zip
        ((splitFields false
          (joinComma ((r.map Prod.fst).map fun k => (lookupD row k).toList))).map
            fun f => String.mk (parseFieldChars f)) = row := by
    intro row hrowmem
    have hrk : row.map Prod.fst = r.map Prod.fst := by
      rw [hkeys row hrowmem, hks]
    rw [parse_line_plain _ (by simpa using hkslen)
      (fun f hf => by
        obtain ⟨k, hk, rfl⟩ := List.mem_map.mp hf
        exact isPlain_spec _
          (lookupD_isPlain row k fun p hp => hplain row hrowmem p hp))]
    rw [List.map_map]
    have hm : List.map (String.mk ∘ fun k => (lookupD row k).toList) (r.map Prod.fst) =
        List.map (fun k => lookupD row k) (r.map Prod.fst) :=
      List.map_congr_left fun k _ => mk_toList (lookupD row k)
    rw [hm, ← hrk, map_lookupD row (by rw [hrk]; exact hksnodup), zip_fst_snd]
  rw [List.map_congr_left fun row h => by
    simp only [Function.comp_apply]
    exact hrow row h]
  exact List.map_id _

/-- Witness for C1: the spec's save-then-load example record round-trips
through the codec unchanged. -/
theorem csv_roundtrip_witness :
    csvParse (csvStringify [sampleCareerRec]) = [sampleCareerRec] :=
  csv_roundtrip .career [sampleCareerRec] (List.cons_ne_nil _ _)
    (fun rec hrec => by
      rw [List.mem_singleton] at hrec
      subst hrec
      rfl)
    (by decide)

end Homepage
